import Mathlib

/-!
Verification of the `rearview` backtesting engine (`main.go`).

This file gives a shallow embedding of the engine and proves properties of it.
Conventions for the embedding:
* Go `float64` values (prices, capital amounts, inflation factors) are modelled
  as exact rationals `ℚ`; Go `int64`/`int` are modelled as `ℤ`/`ℕ`.
* The Go conversion `int64(x)` for a `float64` `x` truncates toward zero; it is
  modelled by `i64` below (truncating division of the rational's numerator by
  its denominator).
* `time.Time` values (which carry day precision only in this program) are
  modelled by `Date` (year/month/day) ordered lexicographically, and
  `Time.AddDate(y, 0, 0)` by `Date.addYears`, including Go's normalization of
  Feb 29 to Mar 1 in non-leap target years (the only overflow a valid
  day-precision date can produce when only years are added).
* Go functions that would panic on some input (indexing an empty slice) are
  modelled with `Option`, `none` standing for the panic.
-/

namespace Rearview

/-- Calendar date at day precision, standing for the program's UTC `time.Time`
values.  Ordered lexicographically by (year, month, day), which coincides with
Go's instant-based ordering for valid day-precision dates. -/
structure Date where
  year : Int
  month : Int
  day : Int
deriving DecidableEq, Repr

/-- Strict ordering on dates: Go's `a.Before(b)` for day-precision dates. -/
def Date.blt (a b : Date) : Bool :=
  a.year < b.year ||
    (a.year == b.year &&
      (a.month < b.month || (a.month == b.month && a.day < b.day)))

/-- Non-strict ordering: Go's `b.After(a) || b.Equal(a)`, i.e. `a ≤ b`. -/
def Date.ble (a b : Date) : Bool := !(Date.blt b a)

/-- Gregorian leap-year rule, as in Go's `time` package. -/
def isLeapYear (y : Int) : Bool :=
  y % 4 == 0 && (y % 100 != 0 || y % 400 == 0)

/-- Number of days of month `m` of year `y`. -/
def daysInMonth (y m : Int) : Int :=
  if m == 2 then (if isLeapYear y then 29 else 28)
  else if m == 4 || m == 6 || m == 9 || m == 11 then 30
  else 31

/-- Go's `t.AddDate(n, 0, 0)` on a valid day-precision date: add `n` years and
normalize a day overflow into the following month (for a valid input date the
only possible overflow is Feb 29 of a leap year landing in a non-leap year,
which Go normalizes to Mar 1). -/
def Date.addYears (d : Date) (n : Int) : Date :=
  if d.day ≤ daysInMonth (d.year + n) d.month then
    ⟨d.year + n, d.month, d.day⟩
  else
    ⟨d.year + n, d.month + 1, d.day - daysInMonth (d.year + n) d.month⟩

/-- One sample of the input series: `datePrice` in the source. -/
structure DatePrice where
  Date : Date
  HighPrice : ℚ
deriving DecidableEq, Repr

/-- Default sample used with `List.getD`; every index actually accessed by the
program is in range (Go would panic otherwise), so this value is never read on
a reachable execution. -/
def defaultDatePrice : DatePrice := ⟨⟨1, 1, 1⟩, 0⟩

/-- Strategy configuration: `config` in the source. -/
structure Config where
  capital : Int
  run : Nat
  yearPerRun : Nat
  inflationRate : ℚ
  costPerYear : Int
deriving DecidableEq, Repr

/-- Result of one period simulation: the `success`/`failed`/`na` constants. -/
inductive Outcome where
  | success
  | failed
  | na
deriving DecidableEq, Repr

/-- Go's `int64(x)` conversion of a nonnegative-or-negative `float64`:
truncation toward zero. -/
def i64 (q : ℚ) : Int := q.num.tdiv q.den

/-- The loop of Go's `sort.Search`: binary search on `[i, j)` maintaining the
invariant that the answer lies in `[i, j]`.  `fuel` bounds the number of
iterations; since `j - i` strictly decreases, any `fuel ≥ j - i` computes the
loop's exact result. -/
def searchLoop (f : Nat → Bool) : Nat → Nat → Nat → Nat
  | 0, i, _ => i
  | fuel + 1, i, j =>
    if i < j then
      if f ((i + j) / 2) then searchLoop f fuel i ((i + j) / 2)
      else searchLoop f fuel ((i + j) / 2 + 1) j
    else i

/-- Go's `sort.Search n f`: the binary search over `[0, n)`. -/
def sortSearch (n : Nat) (f : Nat → Bool) : Nat := searchLoop f n 0 n

/-- The predicate closure passed to `sort.Search` by `findClosestDay`:
`datePriceDate.After(day) || datePriceDate.Equal(day)`, i.e. `day ≤ date(i)`. -/
def fcdPred (day : Date) (l : List DatePrice) (i : Nat) : Bool :=
  Date.ble day ((l.getD i defaultDatePrice).Date)

/-- `findClosestDay` from the source: binary search for the first sample whose
date is on or after `day`; `(-1, false)` when there is none. -/
def findClosestDay (day : Date) (inDatePrices : List DatePrice) : Int × Bool :=
  if sortSearch inDatePrices.length (fcdPred day inDatePrices) =
      inDatePrices.length then
    (-1, false)
  else
    ((sortSearch inDatePrices.length (fcdPred day inDatePrices) : Int), true)

/-- The local `inflationRate` of run `run` (0-based) in `checkInPeriod`:
`math.Pow(config.inflationRate, float64((run+1)*config.yearPerRun))`. -/
def inflationFactorAt (config : Config) (run : Nat) : ℚ :=
  config.inflationRate ^ ((run + 1) * config.yearPerRun)

/-- The `costOfLiving` of run `run` in `checkInPeriod`:
`float64(config.costPerYear) * float64(config.yearPerRun) * inflationRate`. -/
def costOfLivingAt (config : Config) (run : Nat) : ℚ :=
  (config.costPerYear : ℚ) * (config.yearPerRun : ℚ) * inflationFactorAt config run

/-- The `targetCapital` of run `run` in `checkInPeriod`:
`inflationCapital + costOfLiving` with
`inflationCapital = float64(config.capital) * inflationRate`. -/
def targetCapitalAt (config : Config) (run : Nat) : ℚ :=
  (config.capital : ℚ) * inflationFactorAt config run + costOfLivingAt config run

/-- The initial share purchase of `checkInPeriod`:
`int64(float64(config.capital) / datePrices[0].HighPrice)`. -/
def initialShares (config : Config) (dp0 : DatePrice) : Int :=
  i64 ((config.capital : ℚ) / dp0.HighPrice)

/-- The inner scan loop of `checkInPeriod` (`for currIndex := startIndex;
currIndex < endIndex; currIndex++`), searching the window for the first day
whose held-share value reaches `targetCapital` and selling
`int64(costOfLiving / price)` shares there.  Returns the satisfying index and
the updated share count, or `none` when no day in the window satisfies the
target.  `fuel` is the number of remaining iterations. -/
def scanLoop (datePrices : List DatePrice) (targetCapital costOfLiving : ℚ) :
    Nat → Int → Nat → Option (Nat × Int)
  | 0, _, _ => none
  | fuel + 1, heldShares, currIndex =>
    if targetCapital ≤
        (heldShares : ℚ) * (datePrices.getD currIndex defaultDatePrice).HighPrice then
      some (currIndex,
        heldShares -
          i64 (costOfLiving / (datePrices.getD currIndex defaultDatePrice).HighPrice))
    else
      scanLoop datePrices targetCapital costOfLiving fuel heldShares (currIndex + 1)

/-- The window scan of one run: iterate `scanLoop` over
`[startIndex, endIndex)`, exactly `endIndex - startIndex` iterations. -/
def scanWindow (datePrices : List DatePrice) (heldShares : Int)
    (targetCapital costOfLiving : ℚ) (startIndex endIndex : Nat) :
    Option (Nat × Int) :=
  scanLoop datePrices targetCapital costOfLiving (endIndex - startIndex)
    heldShares startIndex

/-- The run loop of `checkInPeriod`.  The state is the current share count and
the rolling `endDay`; `runIdx` is the 0-based index of the next run (used for
the inflation exponent) and `fuel` the number of runs still to process.
`checkInPeriod` starts it with `runIdx = 0` and `fuel = config.run`. -/
def checkRuns (config : Config) (datePrices : List DatePrice) :
    Int → Date → Nat → Nat → Outcome
  | _, _, _, 0 => Outcome.success
  | heldShares, endDay0, runIdx, fuel + 1 =>
    if (findClosestDay endDay0 datePrices).2 = false ∨
        (findClosestDay (endDay0.addYears (config.yearPerRun : Int)) datePrices).2 =
          false then
      Outcome.na
    else
      match scanWindow datePrices heldShares (targetCapitalAt config runIdx)
          (costOfLivingAt config runIdx)
          (findClosestDay endDay0 datePrices).1.toNat
          (findClosestDay (endDay0.addYears (config.yearPerRun : Int)) datePrices).1.toNat with
      | some (_, heldShares2) =>
          checkRuns config datePrices heldShares2
            (endDay0.addYears (config.yearPerRun : Int)) (runIdx + 1) fuel
      | none => Outcome.failed

/-- `checkInPeriod` from the source.  It reads `datePrices[0]` unconditionally,
so the empty slice (on which Go would panic; no caller passes one) is mapped to
`none`. -/
def checkInPeriod (config : Config) (datePrices : List DatePrice) : Option Outcome :=
  match datePrices with
  | [] => none
  | dp0 :: _ =>
      some (checkRuns config datePrices (initialShares config dp0) dp0.Date 0
        config.run)

/-- The period start date of run `k` (0-based) of a simulation whose series
starts on `d0`: `d0` advanced `k` times by `yearPerRun` years.  Run `k`'s
period end date is `periodStartDate config d0 (k+1)`. -/
def periodStartDate (config : Config) (d0 : Date) (k : Nat) : Date :=
  Nat.iterate (fun d => d.addYears (config.yearPerRun : Int)) k d0

/-- The sequence of per-starting-index results produced by `checkStrategy`'s
loop (`checkInPeriod(config, datePrices[i:], ...)` for each `i`). -/
def outcomeList (config : Config) (datePrices : List DatePrice) :
    List (Option Outcome) :=
  (List.range datePrices.length).map
    (fun i => checkInPeriod config (datePrices.drop i))

/-- `checkStrategy`'s `successCount` tally. -/
def successCount (config : Config) (datePrices : List DatePrice) : Nat :=
  (outcomeList config datePrices).count (some Outcome.success)

/-- `checkStrategy`'s `failedCount` tally. -/
def failedCount (config : Config) (datePrices : List DatePrice) : Nat :=
  (outcomeList config datePrices).count (some Outcome.failed)

/-- `checkStrategy`'s `naCount` tally. -/
def naCount (config : Config) (datePrices : List DatePrice) : Nat :=
  (outcomeList config datePrices).count (some Outcome.na)

/-- The success rate printed by `checkStrategy`:
`float64(successCount) / float64(successCount+failedCount)` (as an exact
rational; `0` stands for the `0/0` case, where Go prints NaN). -/
def successRate (config : Config) (datePrices : List DatePrice) : ℚ :=
  (successCount config datePrices : ℚ) /
    ((successCount config datePrices : ℚ) + (failedCount config datePrices : ℚ))

/-- The aggregation entry point as guarded by `main`: an empty parsed series is
rejected (`panic("no input data")`) before `checkStrategy` runs; otherwise the
whole tally is produced. -/
def runBacktest (config : Config) (datePrices : List DatePrice) :
    Except String (Nat × Nat × Nat) :=
  if datePrices.isEmpty then Except.error ("no input data")
  else
    Except.ok
      (successCount config datePrices, failedCount config datePrices,
        naCount config datePrices)

/-- The series invariant assumed by the design: samples sorted ascending by
date (duplicates permitted). -/
def isSortedByDate : List DatePrice → Bool
  | [] => true
  | [_] => true
  | a :: b :: rest => Date.ble a.Date b.Date && isSortedByDate (b :: rest)

/-- The three-sample series of the spec's worked scenario. -/
def series3 : List DatePrice :=
  [⟨⟨2000, 1, 1⟩, 100⟩, ⟨⟨2001, 1, 1⟩, 200⟩, ⟨⟨2010, 1, 1⟩, 1000⟩]

/-- The configuration of the spec's worked scenario. -/
def cfgScenario : Config := ⟨100, 1, 1, 1, 0⟩

/-- Five-sample series witnessing that the success rate is not monotone in the
annual cost of living: with `cfgLowCost` the start at index 0 fails, with
`cfgHighCost` (same config, higher cost) it succeeds. -/
def series5 : List DatePrice :=
  [⟨⟨2000, 1, 1⟩, 1⟩, ⟨⟨2000, 3, 1⟩, 20⟩, ⟨⟨2000, 6, 1⟩, 10000⟩,
    ⟨⟨2001, 6, 1⟩, 370⟩, ⟨⟨2002, 1, 1⟩, 50⟩]

/-- A valid configuration with annual cost of living 900. -/
def cfgLowCost : Config := ⟨100, 2, 1, 2, 900⟩

/-- The same configuration with annual cost of living raised to 9000. -/
def cfgHighCost : Config := ⟨100, 2, 1, 2, 9000⟩

/-! ### Order lemmas for dates -/

theorem Date.blt_iff (a b : Date) :
    Date.blt a b = true ↔
      (a.year < b.year ∨
        (a.year = b.year ∧
          (a.month < b.month ∨ (a.month = b.month ∧ a.day < b.day)))) := by
  simp [Date.blt, Bool.or_eq_true, Bool.and_eq_true, decide_eq_true_eq,
    beq_iff_eq]

theorem Date.ble_iff (a b : Date) :
    Date.ble a b = true ↔
      (a.year < b.year ∨
        (a.year = b.year ∧
          (a.month < b.month ∨ (a.month = b.month ∧ a.day ≤ b.day)))) := by
  rw [Date.ble, Bool.not_eq_true', ← Bool.not_eq_true, Date.blt_iff]
  constructor
  · intro h; omega
  · intro h; omega

theorem Date.ble_refl (a : Date) : Date.ble a a = true := by
  rw [Date.ble_iff]; omega

theorem Date.ble_trans {a b c : Date} (h1 : Date.ble a b = true)
    (h2 : Date.ble b c = true) : Date.ble a c = true := by
  rw [Date.ble_iff] at h1 h2 ⊢; omega

/-! ### Sortedness of the series -/

theorem isSortedByDate_tail {a : DatePrice} {l : List DatePrice}
    (h : isSortedByDate (a :: l) = true) : isSortedByDate l = true := by
  match l with
  | [] => rfl
  | b :: rest =>
      have := h
      rw [isSortedByDate, Bool.and_eq_true] at this
      exact this.2

theorem isSorted_getD_adj :
    ∀ (l : List DatePrice), isSortedByDate l = true →
      ∀ k, k + 1 < l.length →
        Date.ble ((l.getD k defaultDatePrice).Date)
          ((l.getD (k + 1) defaultDatePrice).Date) = true := by
  intro l
  induction l with
  | nil => intro _ k hk; simp at hk
  | cons a t ih =>
    intro hs k hk
    match t, hk with
    | b :: rest, hk =>
      match k with
      | 0 =>
          have hab : Date.ble a.Date b.Date = true := by
            rw [isSortedByDate, Bool.and_eq_true] at hs
            exact hs.1
          simpa [List.getD] using hab
      | k + 1 =>
          have ht : isSortedByDate (b :: rest) = true := isSortedByDate_tail hs
          have := ih ht k (by simpa using Nat.lt_of_succ_lt_succ hk)
          simpa [List.getD] using this

theorem isSorted_getD_le (l : List DatePrice) (hs : isSortedByDate l = true) :
    ∀ i j, i ≤ j → j < l.length →
      Date.ble ((l.getD i defaultDatePrice).Date)
        ((l.getD j defaultDatePrice).Date) = true := by
  intro i j hij
  induction j, hij using Nat.le_induction with
  | base => intro _; exact Date.ble_refl _
  | succ j hij ih =>
      intro hj1
      exact Date.ble_trans (ih (by omega)) (isSorted_getD_adj l hs j (by omega))

/-- Sortedness makes the locator's search predicate monotone in the index. -/
theorem fcdPred_mono (day : Date) (l : List DatePrice)
    (hs : isSortedByDate l = true) :
    ∀ a b, a ≤ b → b < l.length → fcdPred day l a = true →
      fcdPred day l b = true := by
  intro a b hab hb hfa
  exact Date.ble_trans hfa (isSorted_getD_le l hs a b hab hb)

/-! ### Correctness of the binary search -/

theorem searchLoop_zero (f : Nat → Bool) (i j : Nat) : searchLoop f 0 i j = i :=
  rfl

theorem searchLoop_succ (f : Nat → Bool) (fuel i j : Nat) :
    searchLoop f (fuel + 1) i j =
      if i < j then
        if f ((i + j) / 2) then searchLoop f fuel i ((i + j) / 2)
        else searchLoop f fuel ((i + j) / 2 + 1) j
      else i := rfl

theorem searchLoop_spec (f : Nat → Bool) (n : Nat)
    (hmono : ∀ a b, a ≤ b → b < n → f a = true → f b = true) :
    ∀ (fuel i j : Nat), i ≤ j → j ≤ n → j - i ≤ fuel →
      (∀ k, k < i → f k = false) →
      (∀ k, j ≤ k → k < n → f k = true) →
      i ≤ searchLoop f fuel i j ∧ searchLoop f fuel i j ≤ j ∧
        (∀ k, k < searchLoop f fuel i j → f k = false) ∧
        (∀ k, searchLoop f fuel i j ≤ k → k < n → f k = true) := by
  intro fuel
  induction fuel with
  | zero =>
      intro i j hij hjn hfu hpre hsuf
      have hji : i = j := by omega
      subst hji
      rw [searchLoop_zero]
      exact ⟨Nat.le_refl i, Nat.le_refl i, hpre, hsuf⟩
  | succ fuel ih =>
      intro i j hij hjn hfu hpre hsuf
      rw [searchLoop_succ]
      by_cases hlt : i < j
      · rw [if_pos hlt]
        have hhi : i ≤ (i + j) / 2 := by omega
        have hhj : (i + j) / 2 < j := by omega
        cases hf : f ((i + j) / 2) with
        | true =>
            rw [if_pos rfl]
            have hsuf2 : ∀ k, (i + j) / 2 ≤ k → k < n → f k = true := by
              intro k hk1 hk2
              exact hmono ((i + j) / 2) k hk1 hk2 hf
            have := ih i ((i + j) / 2) hhi (by omega) (by omega) hpre hsuf2
            exact ⟨this.1, Nat.le_trans this.2.1 (Nat.le_of_lt hhj), this.2.2⟩
        | false =>
            rw [if_neg (by simp)]
            have hpre2 : ∀ k, k < (i + j) / 2 + 1 → f k = false := by
              intro k hk
              by_cases hki : k < i
              · exact hpre k hki
              · cases hfk : f k with
                | false => rfl
                | true =>
                    have : f ((i + j) / 2) = true :=
                      hmono k ((i + j) / 2) (by omega) (by omega) hfk
                    rw [this] at hf
                    exact absurd hf (by simp)
            have := ih ((i + j) / 2 + 1) j (by omega) hjn (by omega) hpre2 hsuf
            exact ⟨by omega, this.2.1, this.2.2⟩
      · rw [if_neg hlt]
        have hji : i = j := by omega
        subst hji
        exact ⟨Nat.le_refl i, Nat.le_refl i, hpre, hsuf⟩

theorem sortSearch_spec (n : Nat) (f : Nat → Bool)
    (hmono : ∀ a b, a ≤ b → b < n → f a = true → f b = true) :
    sortSearch n f ≤ n ∧ (∀ k, k < sortSearch n f → f k = false) ∧
      (∀ k, sortSearch n f ≤ k → k < n → f k = true) := by
  have := searchLoop_spec f n hmono n 0 n (Nat.zero_le n) (Nat.le_refl n)
    (by omega) (fun k hk => absurd hk (Nat.not_lt_zero k))
    (fun k hk1 hk2 => absurd (Nat.lt_of_le_of_lt hk1 hk2) (Nat.lt_irrefl n))
  exact ⟨this.2.1, this.2.2⟩

/-! ### Characterization of `findClosestDay` -/

theorem findClosestDay_eq_of_lt (day : Date) (l : List DatePrice)
    (h : sortSearch l.length (fcdPred day l) ≠ l.length) :
    findClosestDay day l =
      ((sortSearch l.length (fcdPred day l) : Int), true) := by
  rw [findClosestDay, if_neg h]

theorem findClosestDay_eq_of_eq (day : Date) (l : List DatePrice)
    (h : sortSearch l.length (fcdPred day l) = l.length) :
    findClosestDay day l = (-1, false) := by
  rw [findClosestDay, if_pos h]

/-- On a sorted series, a failed lookup means the target day lies beyond the
last sample's date. -/
theorem findClosestDay_not_found (day : Date) (l : List DatePrice)
    (hs : isSortedByDate l = true) (hne : l ≠ []) :
    (findClosestDay day l).2 = false →
      Date.ble day ((l.getD (l.length - 1) defaultDatePrice).Date) = false := by
  intro hf
  have hlen : 0 < l.length := List.length_pos.mpr hne
  have hspec := sortSearch_spec l.length (fcdPred day l) (fcdPred_mono day l hs)
  by_cases he : sortSearch l.length (fcdPred day l) = l.length
  · exact hspec.2.1 (l.length - 1) (by omega)
  · rw [findClosestDay_eq_of_lt day l he] at hf
    exact absurd hf (by simp)

/-- On a sorted series, a successful lookup returns the least index whose date
is on or after the target day. -/
theorem findClosestDay_found (day : Date) (l : List DatePrice)
    (hs : isSortedByDate l = true) :
    (findClosestDay day l).2 = true →
      ∃ i : Nat, findClosestDay day l = ((i : Int), true) ∧ i < l.length ∧
        fcdPred day l i = true ∧ ∀ k, k < i → fcdPred day l k = false := by
  intro hf
  have hspec := sortSearch_spec l.length (fcdPred day l) (fcdPred_mono day l hs)
  by_cases he : sortSearch l.length (fcdPred day l) = l.length
  · rw [findClosestDay_eq_of_eq day l he] at hf
    exact absurd hf (by simp)
  · refine ⟨sortSearch l.length (fcdPred day l),
      findClosestDay_eq_of_lt day l he, by omega, ?_, hspec.2.1⟩
    exact hspec.2.2 _ (Nat.le_refl _) (by omega)

/-! ### Truncation toward zero versus floor -/

theorem i64_eq_floor (q : ℚ) (hq : 0 ≤ q) : i64 q = ⌊q⌋ := by
  rw [i64, Int.tdiv_eq_ediv (Rat.num_nonneg.mpr hq) (Int.natCast_nonneg q.den)]
  exact (Rat.floor_def).symm

theorem i64_nonneg (q : ℚ) (hq : 0 ≤ q) : 0 ≤ i64 q :=
  Int.tdiv_nonneg (Rat.num_nonneg.mpr hq) (Int.natCast_nonneg q.den)

theorem getD_mem {l : List DatePrice} {i : Nat} (h : i < l.length) :
    l.getD i defaultDatePrice ∈ l := by
  rw [List.getD_eq_getElem?_getD, List.getElem?_eq_getElem h, Option.getD_some]
  exact List.getElem_mem h

/-! ### Characterization of the window scan -/

theorem scanLoop_zero (l : List DatePrice) (tc col : ℚ) (held : Int)
    (curr : Nat) : scanLoop l tc col 0 held curr = none := rfl

theorem scanLoop_succ (l : List DatePrice) (tc col : ℚ) (fuel : Nat)
    (held : Int) (curr : Nat) :
    scanLoop l tc col (fuel + 1) held curr =
      if tc ≤ (held : ℚ) * (l.getD curr defaultDatePrice).HighPrice then
        some (curr,
          held - i64 (col / (l.getD curr defaultDatePrice).HighPrice))
      else scanLoop l tc col fuel held (curr + 1) := rfl

/-- A successful scan returns the first index of the window whose held-share
value reaches the target, together with the share count after the sale. -/
theorem scanLoop_some_spec (l : List DatePrice) (tc col : ℚ) :
    ∀ (fuel : Nat) (held : Int) (curr i : Nat) (h2 : Int),
      scanLoop l tc col fuel held curr = some (i, h2) →
      curr ≤ i ∧ i < curr + fuel ∧
        tc ≤ (held : ℚ) * (l.getD i defaultDatePrice).HighPrice ∧
        h2 = held - i64 (col / (l.getD i defaultDatePrice).HighPrice) ∧
        ∀ k, curr ≤ k → k < i →
          ¬ tc ≤ (held : ℚ) * (l.getD k defaultDatePrice).HighPrice := by
  intro fuel
  induction fuel with
  | zero =>
      intro held curr i h2 h
      rw [scanLoop_zero] at h
      exact absurd h (by simp)
  | succ fuel ih =>
      intro held curr i h2 h
      rw [scanLoop_succ] at h
      by_cases hsat : tc ≤ (held : ℚ) * (l.getD curr defaultDatePrice).HighPrice
      · rw [if_pos hsat] at h
        have hi : curr = i ∧
            held - i64 (col / (l.getD curr defaultDatePrice).HighPrice) = h2 := by
          have := h
          simp only [Option.some.injEq, Prod.mk.injEq] at this
          exact this
        obtain ⟨rfl, hh2⟩ := hi
        exact ⟨Nat.le_refl _, by omega, hsat, hh2.symm,
          fun k hk1 hk2 => absurd (Nat.lt_of_le_of_lt hk1 hk2) (Nat.lt_irrefl _)⟩
      · rw [if_neg hsat] at h
        have := ih held (curr + 1) i h2 h
        refine ⟨by omega, by omega, this.2.2.1, this.2.2.2.1, ?_⟩
        intro k hk1 hk2
        by_cases hkc : k = curr
        · subst hkc; exact hsat
        · exact this.2.2.2.2 k (by omega) hk2

/-- A failed scan means no index of the window satisfies the target. -/
theorem scanLoop_none_spec (l : List DatePrice) (tc col : ℚ) :
    ∀ (fuel : Nat) (held : Int) (curr : Nat),
      scanLoop l tc col fuel held curr = none →
      ∀ k, curr ≤ k → k < curr + fuel →
        ¬ tc ≤ (held : ℚ) * (l.getD k defaultDatePrice).HighPrice := by
  intro fuel
  induction fuel with
  | zero => intro held curr _ k hk1 hk2; omega
  | succ fuel ih =>
      intro held curr h k hk1 hk2
      rw [scanLoop_succ] at h
      by_cases hsat : tc ≤ (held : ℚ) * (l.getD curr defaultDatePrice).HighPrice
      · rw [if_pos hsat] at h
        exact absurd h (by simp)
      · rw [if_neg hsat] at h
        by_cases hkc : k = curr
        · subst hkc; exact hsat
        · exact ih held (curr + 1) h k (by omega) (by omega)

/-! ### Unfolding and structural lemmas for the run loop -/

theorem checkRuns_zero (cfg : Config) (l : List DatePrice) (held : Int)
    (e : Date) (rIdx : Nat) : checkRuns cfg l held e rIdx 0 = Outcome.success :=
  rfl

theorem checkRuns_succ (cfg : Config) (l : List DatePrice) (held : Int)
    (e : Date) (rIdx fuel : Nat) :
    checkRuns cfg l held e rIdx (fuel + 1) =
      if (findClosestDay e l).2 = false ∨
          (findClosestDay (e.addYears (cfg.yearPerRun : Int)) l).2 = false then
        Outcome.na
      else
        match scanWindow l held (targetCapitalAt cfg rIdx)
            (costOfLivingAt cfg rIdx) (findClosestDay e l).1.toNat
            (findClosestDay (e.addYears (cfg.yearPerRun : Int)) l).1.toNat with
        | some (_, held2) =>
            checkRuns cfg l held2 (e.addYears (cfg.yearPerRun : Int))
              (rIdx + 1) fuel
        | none => Outcome.failed := rfl

theorem periodStartDate_zero (cfg : Config) (d0 : Date) :
    periodStartDate cfg d0 0 = d0 := rfl

theorem periodStartDate_one (cfg : Config) (d0 : Date) :
    periodStartDate cfg d0 1 = d0.addYears (cfg.yearPerRun : Int) := rfl

theorem periodStartDate_succ (cfg : Config) (d0 : Date) (k : Nat) :
    periodStartDate cfg d0 (k + 1) =
      periodStartDate cfg (d0.addYears (cfg.yearPerRun : Int)) k := by
  rw [periodStartDate, periodStartDate, Function.iterate_succ_apply]

/-- A `na` result can only arise from a failed date lookup in one of the runs
actually processed. -/
theorem checkRuns_na_spec (cfg : Config) (l : List DatePrice) :
    ∀ (fuel : Nat) (held : Int) (e : Date) (rIdx : Nat),
      checkRuns cfg l held e rIdx fuel = Outcome.na →
      ∃ k, k < fuel ∧
        ((findClosestDay (periodStartDate cfg e k) l).2 = false ∨
          (findClosestDay (periodStartDate cfg e (k + 1)) l).2 = false) := by
  intro fuel
  induction fuel with
  | zero =>
      intro held e rIdx h
      rw [checkRuns_zero] at h
      exact absurd h (by simp)
  | succ fuel ih =>
      intro held e rIdx h
      rw [checkRuns_succ] at h
      by_cases hc : (findClosestDay e l).2 = false ∨
          (findClosestDay (e.addYears (cfg.yearPerRun : Int)) l).2 = false
      · refine ⟨0, by omega, ?_⟩
        rw [periodStartDate_zero, periodStartDate_one]
        exact hc
      · rw [if_neg hc] at h
        rcases hsw : scanWindow l held (targetCapitalAt cfg rIdx)
            (costOfLivingAt cfg rIdx) (findClosestDay e l).1.toNat
            (findClosestDay (e.addYears (cfg.yearPerRun : Int)) l).1.toNat with
          _ | ⟨i0, held2⟩
        · rw [hsw] at h
          exact absurd h (by simp)
        · rw [hsw] at h
          obtain ⟨k, hk, hor⟩ :=
            ih held2 (e.addYears (cfg.yearPerRun : Int)) (rIdx + 1) h
          refine ⟨k + 1, by omega, ?_⟩
          rw [periodStartDate_succ, periodStartDate_succ]
          exact hor

/-- Adding one more run to process changes nothing when the shorter
computation does not end in success. -/
theorem checkRuns_fuel_succ (cfg : Config) (l : List DatePrice) :
    ∀ (fuel : Nat) (held : Int) (e : Date) (rIdx : Nat),
      checkRuns cfg l held e rIdx fuel ≠ Outcome.success →
      checkRuns cfg l held e rIdx (fuel + 1) =
        checkRuns cfg l held e rIdx fuel := by
  intro fuel
  induction fuel with
  | zero =>
      intro held e rIdx h
      exact absurd (checkRuns_zero cfg l held e rIdx) h
  | succ fuel ih =>
      intro held e rIdx h
      rw [checkRuns_succ] at h
      rw [checkRuns_succ, checkRuns_succ]
      by_cases hc : (findClosestDay e l).2 = false ∨
          (findClosestDay (e.addYears (cfg.yearPerRun : Int)) l).2 = false
      · rw [if_pos hc, if_pos hc]
      · rw [if_neg hc] at h
        rw [if_neg hc, if_neg hc]
        rcases hsw : scanWindow l held (targetCapitalAt cfg rIdx)
            (costOfLivingAt cfg rIdx) (findClosestDay e l).1.toNat
            (findClosestDay (e.addYears (cfg.yearPerRun : Int)) l).1.toNat with
          _ | ⟨i0, held2⟩
        · rfl
        · rw [hsw] at h
          exact ih held2 (e.addYears (cfg.yearPerRun : Int)) (rIdx + 1) h

theorem checkRuns_fuel_le (cfg : Config) (l : List DatePrice) {m n : Nat}
    (hmn : m ≤ n) :
    ∀ (held : Int) (e : Date) (rIdx : Nat),
      checkRuns cfg l held e rIdx m ≠ Outcome.success →
      checkRuns cfg l held e rIdx n = checkRuns cfg l held e rIdx m := by
  induction n, hmn using Nat.le_induction with
  | base => intro held e rIdx _; rfl
  | succ n hmn ih =>
      intro held e rIdx h
      have h2 := ih held e rIdx h
      have h3 : checkRuns cfg l held e rIdx n ≠ Outcome.success := by
        rw [h2]; exact h
      rw [checkRuns_fuel_succ cfg l n held e rIdx h3, h2]

/-- The run loop never reads the `run` field of the configuration (the run
count enters only as the loop bound, handled by `fuel`). -/
theorem checkRuns_run_independent (c : Int) (r1 r2 y : Nat) (ir : ℚ)
    (cpy : Int) (l : List DatePrice) :
    ∀ (fuel : Nat) (held : Int) (e : Date) (rIdx : Nat),
      checkRuns ⟨c, r1, y, ir, cpy⟩ l held e rIdx fuel =
        checkRuns ⟨c, r2, y, ir, cpy⟩ l held e rIdx fuel := by
  intro fuel
  induction fuel with
  | zero => intro held e rIdx; rfl
  | succ fuel ih =>
      intro held e rIdx
      rw [checkRuns_succ, checkRuns_succ]
      dsimp only
      by_cases hc : (findClosestDay e l).2 = false ∨
          (findClosestDay (e.addYears (y : Int)) l).2 = false
      · rw [if_pos hc, if_pos hc]
      · rw [if_neg hc, if_neg hc]
        rcases hsw : scanWindow l held (targetCapitalAt ⟨c, r1, y, ir, cpy⟩ rIdx)
            (costOfLivingAt ⟨c, r1, y, ir, cpy⟩ rIdx) (findClosestDay e l).1.toNat
            (findClosestDay (e.addYears (y : Int)) l).1.toNat with
          _ | ⟨i0, held2⟩
        · have hsw2 : scanWindow l held (targetCapitalAt ⟨c, r2, y, ir, cpy⟩ rIdx)
              (costOfLivingAt ⟨c, r2, y, ir, cpy⟩ rIdx) (findClosestDay e l).1.toNat
              (findClosestDay (e.addYears (y : Int)) l).1.toNat = none := hsw
          rw [hsw2]
        · have hsw2 : scanWindow l held (targetCapitalAt ⟨c, r2, y, ir, cpy⟩ rIdx)
              (costOfLivingAt ⟨c, r2, y, ir, cpy⟩ rIdx) (findClosestDay e l).1.toNat
              (findClosestDay (e.addYears (y : Int)) l).1.toNat =
              some (i0, held2) := hsw
          rw [hsw2]
          exact ih held2 (e.addYears (y : Int)) (rIdx + 1)

/-! ### The aggregation tallies -/

theorem count_parts :
    ∀ (l : List (Option Outcome)), (∀ x ∈ l, x ≠ none) →
      l.count (some Outcome.success) + l.count (some Outcome.failed) +
        l.count (some Outcome.na) = l.length := by
  intro l
  induction l with
  | nil => intro _; rfl
  | cons x t ih =>
      intro h
      have hx := h x (List.mem_cons_self x t)
      have ht := ih (fun y hy => h y (List.mem_cons_of_mem x hy))
      match x, hx with
      | some o, _ =>
          cases o <;>
            simp only [List.count_cons, List.length_cons, beq_iff_eq,
              Option.some.injEq, reduceCtorEq, if_true, if_false] <;>
            omega

theorem outcomeList_length (cfg : Config) (l : List DatePrice) :
    (outcomeList cfg l).length = l.length := by
  rw [outcomeList, List.length_map, List.length_range]

theorem checkInPeriod_isSome (cfg : Config) (l : List DatePrice)
    (hne : l ≠ []) : (checkInPeriod cfg l).isSome = true := by
  match l, hne with
  | dp0 :: rest, _ => rfl

theorem outcomeList_ne_none (cfg : Config) (l : List DatePrice) :
    ∀ x ∈ outcomeList cfg l, x ≠ none := by
  intro x hx
  rw [outcomeList, List.mem_map] at hx
  obtain ⟨i, hi, rfl⟩ := hx
  rw [List.mem_range] at hi
  have hne : l.drop i ≠ [] := by
    intro hnil
    rw [List.drop_eq_nil_iff] at hnil
    omega
  intro hnone
  have := checkInPeriod_isSome cfg (l.drop i) hne
  rw [hnone] at this
  exact absurd this (by simp)

theorem successCount_le_of_pointwise (cfg1 cfg2 : Config) (l : List DatePrice)
    (h : ∀ i, i < l.length →
      checkInPeriod cfg2 (l.drop i) = some Outcome.success →
      checkInPeriod cfg1 (l.drop i) = some Outcome.success) :
    successCount cfg2 l ≤ successCount cfg1 l := by
  rw [successCount, successCount, outcomeList, outcomeList,
    List.count_eq_countP, List.count_eq_countP, List.countP_map,
    List.countP_map]
  apply List.countP_mono_left
  intro i hi
  rw [List.mem_range] at hi
  simp only [Function.comp_apply, beq_iff_eq]
  exact h i hi

theorem failedCount_le_of_pointwise (cfg1 cfg2 : Config) (l : List DatePrice)
    (h : ∀ i, i < l.length →
      checkInPeriod cfg1 (l.drop i) = some Outcome.failed →
      checkInPeriod cfg2 (l.drop i) = some Outcome.failed) :
    failedCount cfg1 l ≤ failedCount cfg2 l := by
  rw [failedCount, failedCount, outcomeList, outcomeList,
    List.count_eq_countP, List.count_eq_countP, List.countP_map,
    List.countP_map]
  apply List.countP_mono_left
  intro i hi
  rw [List.mem_range] at hi
  simp only [Function.comp_apply, beq_iff_eq]
  exact h i hi

/-- Monotonicity of the rate computation itself: fewer successes and more
failures can only lower `s / (s + f)`. -/
theorem rate_le_rate {s1 f1 s2 f2 : Nat} (hs : s2 ≤ s1) (hf : f1 ≤ f2) :
    (s2 : ℚ) / ((s2 : ℚ) + (f2 : ℚ)) ≤ (s1 : ℚ) / ((s1 : ℚ) + (f1 : ℚ)) := by
  by_cases hz : s2 = 0
  · subst hz
    rw [Nat.cast_zero, zero_div]
    apply div_nonneg (Nat.cast_nonneg s1)
    have := Nat.cast_nonneg (α := ℚ) s1
    have := Nat.cast_nonneg (α := ℚ) f1
    linarith
  · have hs2 : (0 : ℚ) < (s2 : ℚ) := by
      exact_mod_cast Nat.pos_of_ne_zero hz
    have hs1 : (0 : ℚ) < (s1 : ℚ) := by
      have : (s2 : ℚ) ≤ (s1 : ℚ) := by exact_mod_cast hs
      linarith
    have hf1 : (0 : ℚ) ≤ (f1 : ℚ) := Nat.cast_nonneg f1
    have hf2 : (0 : ℚ) ≤ (f2 : ℚ) := Nat.cast_nonneg f2
    rw [div_le_div_iff₀ (by linarith) (by linarith)]
    have hcross : (s2 : ℚ) * (f1 : ℚ) ≤ (s1 : ℚ) * (f2 : ℚ) := by
      have h1 : (s2 : ℚ) ≤ (s1 : ℚ) := by exact_mod_cast hs
      have h2 : (f1 : ℚ) ≤ (f2 : ℚ) := by exact_mod_cast hf
      calc (s2 : ℚ) * (f1 : ℚ) ≤ (s1 : ℚ) * (f1 : ℚ) := by
            exact mul_le_mul_of_nonneg_right h1 hf1
        _ ≤ (s1 : ℚ) * (f2 : ℚ) := by
            exact mul_le_mul_of_nonneg_left h2 (le_of_lt hs1)
    nlinarith

/-! ### Per-starting-index monotonicity in the run count -/

theorem checkInPeriod_run_mono (c : Int) (r1 r2 y : Nat) (ir : ℚ) (cpy : Int)
    (hr : r1 ≤ r2) (l : List DatePrice) :
    (checkInPeriod ⟨c, r2, y, ir, cpy⟩ l = some Outcome.success →
      checkInPeriod ⟨c, r1, y, ir, cpy⟩ l = some Outcome.success) ∧
    (checkInPeriod ⟨c, r1, y, ir, cpy⟩ l = some Outcome.failed →
      checkInPeriod ⟨c, r2, y, ir, cpy⟩ l = some Outcome.failed) := by
  match l with
  | [] => exact ⟨fun h => absurd h (by rw [checkInPeriod]; simp),
      fun h => absurd h (by rw [checkInPeriod]; simp)⟩
  | dp0 :: rest =>
      have hcip : ∀ (r : Nat), checkInPeriod ⟨c, r, y, ir, cpy⟩ (dp0 :: rest) =
          some (checkRuns ⟨c, r1, y, ir, cpy⟩ (dp0 :: rest)
            (initialShares ⟨c, r, y, ir, cpy⟩ dp0) dp0.Date 0 r) := by
        intro r
        rw [checkInPeriod]
        rw [checkRuns_run_independent c r r1 y ir cpy]
      have hinit : initialShares ⟨c, r2, y, ir, cpy⟩ dp0 =
          initialShares ⟨c, r1, y, ir, cpy⟩ dp0 := rfl
      constructor
      · intro h
        rw [hcip r2, hinit] at h
        rw [hcip r1]
        have h2 := Option.some.inj h
        by_cases hs : checkRuns ⟨c, r1, y, ir, cpy⟩ (dp0 :: rest)
            (initialShares ⟨c, r1, y, ir, cpy⟩ dp0) dp0.Date 0 r1 =
            Outcome.success
        · rw [hs]
        · rw [checkRuns_fuel_le ⟨c, r1, y, ir, cpy⟩ (dp0 :: rest) hr _ _ _ hs]
            at h2
          exact absurd h2 hs
      · intro h
        rw [hcip r1] at h
        rw [hcip r2, hinit]
        have h2 := Option.some.inj h
        have hns : checkRuns ⟨c, r1, y, ir, cpy⟩ (dp0 :: rest)
            (initialShares ⟨c, r1, y, ir, cpy⟩ dp0) dp0.Date 0 r1 ≠
            Outcome.success := by
          rw [h2]; intro hco; exact absurd hco (by simp)
        rw [checkRuns_fuel_le ⟨c, r1, y, ir, cpy⟩ (dp0 :: rest) hr _ _ _ hns,
          h2]

/-! ### The claims -/

/-- Claim C1: for every run `r` (0-based) processed by the period simulator,
the target capital of that run equals
`initialCapital * inflationRate ^ ((r+1) * yearsPerRun) +
 annualCostOfLiving * yearsPerRun * inflationRate ^ ((r+1) * yearsPerRun)`,
i.e. the inflated capital plus the cost of living with compounding exponent
`n = (r+1) * yearsPerRun`.  (`targetCapitalAt config r` is exactly the target
capital that `checkRuns` uses for the run with index `r`.) -/
theorem targetCapital_formula (config : Config) (r : Nat) :
    targetCapitalAt config r =
      (config.capital : ℚ) *
          config.inflationRate ^ ((r + 1) * config.yearPerRun) +
        (config.costPerYear : ℚ) * (config.yearPerRun : ℚ) *
          config.inflationRate ^ ((r + 1) * config.yearPerRun) := rfl

/-- Claim C2: on a sorted non-empty series the period simulator always returns
one of the three outcomes, and it returns NotApplicable only when the period
start date or the period end date of some processed run lies beyond the last
sample's date (exactly the case in which a date lookup fails). -/
theorem checkInPeriod_classification (cfg : Config) (dp0 : DatePrice)
    (rest : List DatePrice) (hs : isSortedByDate (dp0 :: rest) = true) :
    (∃ o : Outcome, checkInPeriod cfg (dp0 :: rest) = some o) ∧
    (checkInPeriod cfg (dp0 :: rest) = some Outcome.na →
      ∃ r, r < cfg.run ∧
        (Date.ble (periodStartDate cfg dp0.Date r)
            (((dp0 :: rest).getD ((dp0 :: rest).length - 1)
              defaultDatePrice).Date) = false ∨
          Date.ble (periodStartDate cfg dp0.Date (r + 1))
            (((dp0 :: rest).getD ((dp0 :: rest).length - 1)
              defaultDatePrice).Date) = false)) := by
  constructor
  · exact ⟨_, rfl⟩
  · intro h
    have h2 : checkRuns cfg (dp0 :: rest) (initialShares cfg dp0) dp0.Date 0
        cfg.run = Outcome.na := Option.some.inj h
    obtain ⟨k, hk, hor⟩ :=
      checkRuns_na_spec cfg (dp0 :: rest) cfg.run (initialShares cfg dp0)
        dp0.Date 0 h2
    refine ⟨k, hk, ?_⟩
    rcases hor with h1 | h1
    · exact Or.inl (findClosestDay_not_found _ _ hs (by simp) h1)
    · exact Or.inr (findClosestDay_not_found _ _ hs (by simp) h1)

/-- Claim C2, concrete instance: on the scenario series with ten-fold longer
periods the simulation is NotApplicable, and the classification theorem
applies. -/
theorem checkInPeriod_classification_witness :
    isSortedByDate series3 = true ∧
    checkInPeriod ⟨100, 1, 20, 1, 0⟩ series3 = some Outcome.na ∧
    ((∃ o : Outcome, checkInPeriod ⟨100, 1, 20, 1, 0⟩ series3 = some o) ∧
      (checkInPeriod ⟨100, 1, 20, 1, 0⟩ series3 = some Outcome.na →
        ∃ r, r < (⟨100, 1, 20, 1, 0⟩ : Config).run ∧
          (Date.ble
              (periodStartDate ⟨100, 1, 20, 1, 0⟩ (⟨2000, 1, 1⟩ : Date) r)
              ((series3.getD (series3.length - 1) defaultDatePrice).Date) =
              false ∨
            Date.ble
              (periodStartDate ⟨100, 1, 20, 1, 0⟩ (⟨2000, 1, 1⟩ : Date) (r + 1))
              ((series3.getD (series3.length - 1) defaultDatePrice).Date) =
              false))) :=
  ⟨of_decide_eq_true (by with_unfolding_all rfl),
    of_decide_eq_true (by with_unfolding_all rfl),
    checkInPeriod_classification ⟨100, 1, 20, 1, 0⟩ ⟨⟨2000, 1, 1⟩, 100⟩
      [⟨⟨2001, 1, 1⟩, 200⟩, ⟨⟨2010, 1, 1⟩, 1000⟩]
      (of_decide_eq_true (by with_unfolding_all rfl))⟩

/-- Claim C3: on a non-empty series sorted ascending by date, for a target day
not after the last sample's date the locator finds the smallest index whose
date is on or after the target (so duplicates resolve to the lowest index and
a target before the first sample yields index 0); for a target day after the
last sample's date it reports not-found. -/
theorem findClosestDay_correct (day : Date) (l : List DatePrice)
    (hs : isSortedByDate l = true) (hne : l ≠ []) :
    (Date.ble day ((l.getD (l.length - 1) defaultDatePrice).Date) = true →
      ∃ i : Nat, findClosestDay day l = ((i : Int), true) ∧ i < l.length ∧
        Date.ble day ((l.getD i defaultDatePrice).Date) = true ∧
        ∀ k, k < i → Date.ble day ((l.getD k defaultDatePrice).Date) = false) ∧
    (Date.ble day ((l.getD (l.length - 1) defaultDatePrice).Date) = false →
      findClosestDay day l = (-1, false)) := by
  have hlen : 0 < l.length := List.length_pos.mpr hne
  have hspec := sortSearch_spec l.length (fcdPred day l) (fcdPred_mono day l hs)
  constructor
  · intro hlast
    have hfound : (findClosestDay day l).2 = true := by
      by_cases he : sortSearch l.length (fcdPred day l) = l.length
      · have hfalse := hspec.2.1 (l.length - 1) (by omega)
        rw [fcdPred, hlast] at hfalse
        exact absurd hfalse (by simp)
      · rw [findClosestDay_eq_of_lt day l he]
    obtain ⟨i, hi1, hi2, hi3, hi4⟩ := findClosestDay_found day l hs hfound
    exact ⟨i, hi1, hi2, hi3, hi4⟩
  · intro hlast
    by_cases he : sortSearch l.length (fcdPred day l) = l.length
    · exact findClosestDay_eq_of_eq day l he
    · have htrue := hspec.2.2 (l.length - 1) (by omega) (by omega)
      rw [fcdPred, hlast] at htrue
      exact absurd htrue (by simp)

/-- Claim C3, concrete instance: looking up 2000-06-01 in the scenario series
returns index 1, the first index dated on or after the target. -/
theorem findClosestDay_correct_witness :
    isSortedByDate series3 = true ∧ series3 ≠ [] ∧
    ((Date.ble ⟨2000, 6, 1⟩
        ((series3.getD (series3.length - 1) defaultDatePrice).Date) = true →
      ∃ i : Nat, findClosestDay ⟨2000, 6, 1⟩ series3 = ((i : Int), true) ∧
        i < series3.length ∧
        Date.ble ⟨2000, 6, 1⟩
          ((series3.getD i defaultDatePrice).Date) = true ∧
        ∀ k, k < i →
          Date.ble ⟨2000, 6, 1⟩
            ((series3.getD k defaultDatePrice).Date) = false) ∧
    (Date.ble ⟨2000, 6, 1⟩
        ((series3.getD (series3.length - 1) defaultDatePrice).Date) = false →
      findClosestDay ⟨2000, 6, 1⟩ series3 = (-1, false))) :=
  ⟨of_decide_eq_true (by with_unfolding_all rfl),
    of_decide_eq_true (by with_unfolding_all rfl),
    findClosestDay_correct ⟨2000, 6, 1⟩ series3
      (of_decide_eq_true (by with_unfolding_all rfl))
      (of_decide_eq_true (by with_unfolding_all rfl))⟩

/-- Claim C4, counterexample: raising the annual cost of living alone can
raise the success rate.  `cfgLowCost` and `cfgHighCost` agree on every field
except the cost of living (900 versus 9000) and both are valid configurations,
yet on `series5` the success rate rises from 0 to 1/2.  (With the higher cost
the start at index 0 liquidates later in the first period, at a much higher
price, so it sells fewer shares and survives the second period.) -/
theorem successRate_not_monotone_in_cost :
    cfgLowCost.capital = cfgHighCost.capital ∧
    cfgLowCost.run = cfgHighCost.run ∧
    cfgLowCost.yearPerRun = cfgHighCost.yearPerRun ∧
    cfgLowCost.inflationRate = cfgHighCost.inflationRate ∧
    cfgLowCost.costPerYear < cfgHighCost.costPerYear ∧
    0 < cfgLowCost.capital ∧ 1 < cfgLowCost.inflationRate ∧
    1 ≤ cfgLowCost.run ∧ 1 ≤ cfgLowCost.yearPerRun ∧
    0 ≤ cfgLowCost.costPerYear ∧
    isSortedByDate series5 = true ∧
    successRate cfgLowCost series5 = 0 ∧
    successRate cfgHighCost series5 = 1 / 2 ∧
    successRate cfgLowCost series5 < successRate cfgHighCost series5 :=
  of_decide_eq_true (by with_unfolding_all rfl)

/-- Claim C4, amended: increasing `numRuns` while holding every other input
fixed never increases the success rate; the corresponding statement for
`annualCostOfLiving` is refuted by `successRate_not_monotone_in_cost`. -/
theorem successRate_antitone_in_numRuns (cfg1 cfg2 : Config)
    (l : List DatePrice) (hc : cfg1.capital = cfg2.capital)
    (hy : cfg1.yearPerRun = cfg2.yearPerRun)
    (hi : cfg1.inflationRate = cfg2.inflationRate)
    (hl : cfg1.costPerYear = cfg2.costPerYear) (hr : cfg1.run ≤ cfg2.run) :
    successRate cfg2 l ≤ successRate cfg1 l := by
  obtain ⟨c1, r1, y1, i1, l1⟩ := cfg1
  obtain ⟨c2, r2, y2, i2, l2⟩ := cfg2
  dsimp only at hc hy hi hl hr
  subst hc; subst hy; subst hi; subst hl
  have hps : ∀ i, i < l.length →
      checkInPeriod ⟨c1, r2, y1, i1, l1⟩ (l.drop i) = some Outcome.success →
      checkInPeriod ⟨c1, r1, y1, i1, l1⟩ (l.drop i) = some Outcome.success :=
    fun i _ => (checkInPeriod_run_mono c1 r1 r2 y1 i1 l1 hr (l.drop i)).1
  have hpf : ∀ i, i < l.length →
      checkInPeriod ⟨c1, r1, y1, i1, l1⟩ (l.drop i) = some Outcome.failed →
      checkInPeriod ⟨c1, r2, y1, i1, l1⟩ (l.drop i) = some Outcome.failed :=
    fun i _ => (checkInPeriod_run_mono c1 r1 r2 y1 i1 l1 hr (l.drop i)).2
  have hsle := successCount_le_of_pointwise ⟨c1, r1, y1, i1, l1⟩
    ⟨c1, r2, y1, i1, l1⟩ l hps
  have hfle := failedCount_le_of_pointwise ⟨c1, r1, y1, i1, l1⟩
    ⟨c1, r2, y1, i1, l1⟩ l hpf
  rw [successRate, successRate]
  exact rate_le_rate hsle hfle

/-- Claim C4 amended, concrete instance: lowering the run count from 2 to 1
(other fields fixed) does not lower the success rate on `series5`. -/
theorem successRate_antitone_in_numRuns_witness :
    (⟨100, 1, 1, 2, 900⟩ : Config).run ≤ cfgLowCost.run ∧
    successRate cfgLowCost series5 ≤
      successRate ⟨100, 1, 1, 2, 900⟩ series5 :=
  ⟨of_decide_eq_true (by with_unfolding_all rfl),
    successRate_antitone_in_numRuns ⟨100, 1, 1, 2, 900⟩ cfgLowCost series5
      rfl rfl rfl rfl (of_decide_eq_true (by with_unfolding_all rfl))⟩

/-- Claim C5: with a nonnegative capital and cost of living, a positive
inflation rate and positive prices, the initial share purchase equals
`floor(initialCapital / price)` (the toward-zero truncation coincides with the
floor), and a liquidation event decreases the share count by exactly
`floor(costOfLiving / price-at-event)`. -/
theorem shares_truncation_floor (cfg : Config) (l : List DatePrice)
    (dp0 : DatePrice) (r : Nat) (held h2 : Int) (a b i : Nat)
    (hcap : 0 ≤ cfg.capital) (hp0 : 0 < dp0.HighPrice)
    (hcost : 0 ≤ cfg.costPerYear) (hrate : 0 < cfg.inflationRate)
    (hpos : ∀ dp ∈ l, 0 < dp.HighPrice) (hb : b ≤ l.length) :
    initialShares cfg dp0 = ⌊(cfg.capital : ℚ) / dp0.HighPrice⌋ ∧
    (scanWindow l held (targetCapitalAt cfg r) (costOfLivingAt cfg r) a b =
        some (i, h2) →
      h2 = held -
        ⌊costOfLivingAt cfg r / (l.getD i defaultDatePrice).HighPrice⌋) := by
  have hfac : (0 : ℚ) ≤ inflationFactorAt cfg r := le_of_lt (pow_pos hrate _)
  have hcol : (0 : ℚ) ≤ costOfLivingAt cfg r := by
    rw [costOfLivingAt]
    have hc : (0 : ℚ) ≤ (cfg.costPerYear : ℚ) := by exact_mod_cast hcost
    exact mul_nonneg (mul_nonneg hc (Nat.cast_nonneg _)) hfac
  constructor
  · rw [initialShares]
    apply i64_eq_floor
    apply div_nonneg _ (le_of_lt hp0)
    exact_mod_cast hcap
  · intro hsw
    rw [scanWindow] at hsw
    have hspec := scanLoop_some_spec l (targetCapitalAt cfg r)
      (costOfLivingAt cfg r) (b - a) held a i h2 hsw
    have hpi : 0 < (l.getD i defaultDatePrice).HighPrice :=
      hpos _ (getD_mem (by omega))
    rw [hspec.2.2.2.1, i64_eq_floor _ (div_nonneg hcol (le_of_lt hpi))]

/-- Claim C5, concrete instance: on `series5` with `cfgLowCost`, the start at
index 0 buys `floor(100/1) = 100` shares, and the first-period liquidation at
index 1 (price 20) sells `floor(1800/20) = 90` shares, leaving 10. -/
theorem shares_truncation_floor_witness :
    (0 ≤ cfgLowCost.capital ∧ 0 < (1 : ℚ) ∧ 0 ≤ cfgLowCost.costPerYear ∧
      0 < cfgLowCost.inflationRate ∧ (∀ dp ∈ series5, 0 < dp.HighPrice) ∧
      3 ≤ series5.length) ∧
    scanWindow series5 100 (targetCapitalAt cfgLowCost 0)
      (costOfLivingAt cfgLowCost 0) 0 3 = some (1, 10) ∧
    (initialShares cfgLowCost ⟨⟨2000, 1, 1⟩, 1⟩ =
        ⌊(cfgLowCost.capital : ℚ) / (1 : ℚ)⌋ ∧
      (scanWindow series5 100 (targetCapitalAt cfgLowCost 0)
          (costOfLivingAt cfgLowCost 0) 0 3 = some (1, 10) →
        (10 : Int) = 100 -
          ⌊costOfLivingAt cfgLowCost 0 /
            (series5.getD 1 defaultDatePrice).HighPrice⌋)) :=
  ⟨of_decide_eq_true (by with_unfolding_all rfl),
    of_decide_eq_true (by with_unfolding_all rfl),
    shares_truncation_floor cfgLowCost series5 ⟨⟨2000, 1, 1⟩, 1⟩ 0 100 10 0 3 1
      (of_decide_eq_true (by with_unfolding_all rfl))
      (of_decide_eq_true (by with_unfolding_all rfl))
      (of_decide_eq_true (by with_unfolding_all rfl))
      (of_decide_eq_true (by with_unfolding_all rfl))
      (of_decide_eq_true (by with_unfolding_all rfl))
      (of_decide_eq_true (by with_unfolding_all rfl))⟩

/-- Claim C6: after a full backtest over a series of length `n`, the three
tallies sum to `n` — every starting index is classified into exactly one of
the three counters. -/
theorem counts_sum (cfg : Config) (l : List DatePrice) :
    successCount cfg l + failedCount cfg l + naCount cfg l = l.length := by
  have h := count_parts (outcomeList cfg l) (outcomeList_ne_none cfg l)
  rw [outcomeList_length] at h
  exact h

/-- Claim C7, counterexample: in the spec's scenario the run-0 window is
`[0, 1)` — index 1 is the exclusive end index of the scan — so the window is
satisfied at index 0, where `1 * 100 ≥ 100`, and not at index 1 as the claim
states.  The overall result is still Success. -/
theorem scenario_satisfied_at_zero_not_one :
    checkInPeriod cfgScenario series3 = some Outcome.success ∧
    findClosestDay ⟨2001, 1, 1⟩ series3 = (1, true) ∧
    scanWindow series3 1 (targetCapitalAt cfgScenario 0)
      (costOfLivingAt cfgScenario 0) 0 1 = some (0, 1) ∧
    (scanWindow series3 1 (targetCapitalAt cfgScenario 0)
        (costOfLivingAt cfgScenario 0) 0 1).map Prod.fst ≠ some 1 :=
  of_decide_eq_true (by with_unfolding_all rfl)

/-- Claim C7, amended: starting at index 0 of the scenario series the
simulation buys 1 share, locates the period end 2001-01-01 at index 1,
computes target capital 100, finds the window `[0, 1)` satisfied at index 0
where `1 * 100 ≥ 100` (selling 0 shares), and returns Success. -/
theorem scenario_simulation_success :
    initialShares cfgScenario ⟨⟨2000, 1, 1⟩, 100⟩ = 1 ∧
    findClosestDay ⟨2001, 1, 1⟩ series3 = (1, true) ∧
    targetCapitalAt cfgScenario 0 = 100 ∧
    scanWindow series3 1 (targetCapitalAt cfgScenario 0)
      (costOfLivingAt cfgScenario 0) 0 1 = some (0, 1) ∧
    targetCapitalAt cfgScenario 0 ≤ (1 : ℚ) * 100 ∧
    checkInPeriod cfgScenario series3 = some Outcome.success :=
  of_decide_eq_true (by with_unfolding_all rfl)

/-- Claim C8: the backtest fails with the input error exactly on the empty
series, the rejection happens before any simulation runs (the error carries no
partial tallies), and on every non-empty series the aggregation runs to
completion, classifying every starting index. -/
theorem runBacktest_empty_guard (cfg : Config) (l : List DatePrice) :
    (runBacktest cfg l = Except.error ("no input data") ↔ l = []) ∧
    (l ≠ [] →
      runBacktest cfg l =
        Except.ok (successCount cfg l, failedCount cfg l, naCount cfg l) ∧
      ∀ i, i < l.length → (checkInPeriod cfg (l.drop i)).isSome = true) := by
  constructor
  · constructor
    · intro h
      by_cases he : l = []
      · exact he
      · rw [runBacktest, if_neg (by simpa using he)] at h
        exact absurd h (by simp)
    · intro he; subst he; rfl
  · intro hne
    refine ⟨by rw [runBacktest, if_neg (by simpa using hne)], ?_⟩
    intro i hi
    apply checkInPeriod_isSome
    intro hnil
    rw [List.drop_eq_nil_iff] at hnil
    omega

/-- Claim C8, concrete instance: the scenario series is accepted and the
aggregation classifies all three starting indices. -/
theorem runBacktest_empty_guard_witness :
    series3 ≠ [] ∧
    (runBacktest cfgScenario series3 =
        Except.ok (successCount cfgScenario series3,
          failedCount cfgScenario series3, naCount cfgScenario series3) ∧
      ∀ i, i < series3.length →
        (checkInPeriod cfgScenario (series3.drop i)).isSome = true) :=
  ⟨of_decide_eq_true (by with_unfolding_all rfl),
    (runBacktest_empty_guard cfgScenario series3).2
      (of_decide_eq_true (by with_unfolding_all rfl))⟩

/-- Claim C9: for a valid configuration (positive capital, inflation rate
above 1, nonnegative cost of living) and positive prices, the share count is
nonnegative after initialization, and at every liquidation event the shares
sold (`held - h2`) never exceed the shares held, because the sale requires
`held * price ≥ inflatedCapital + costOfLiving` with `inflatedCapital > 0`;
hence the share count stays nonnegative after every sale. -/
theorem heldShares_nonneg (cfg : Config) (l : List DatePrice)
    (dp0 : DatePrice) (r : Nat) (held h2 : Int) (a b i : Nat)
    (hcap : 0 < cfg.capital) (hrate : 1 < cfg.inflationRate)
    (hcost : 0 ≤ cfg.costPerYear) (hp0 : 0 < dp0.HighPrice)
    (hpos : ∀ dp ∈ l, 0 < dp.HighPrice) (hb : b ≤ l.length) :
    0 ≤ initialShares cfg dp0 ∧
    (scanWindow l held (targetCapitalAt cfg r) (costOfLivingAt cfg r) a b =
        some (i, h2) →
      held - h2 ≤ held ∧ 0 ≤ h2) := by
  have hr0 : (0 : ℚ) < cfg.inflationRate := lt_trans zero_lt_one hrate
  have hfac : (0 : ℚ) < inflationFactorAt cfg r := pow_pos hr0 _
  have hcol : (0 : ℚ) ≤ costOfLivingAt cfg r := by
    rw [costOfLivingAt]
    have hc : (0 : ℚ) ≤ (cfg.costPerYear : ℚ) := by exact_mod_cast hcost
    exact mul_nonneg (mul_nonneg hc (Nat.cast_nonneg _)) (le_of_lt hfac)
  constructor
  · apply i64_nonneg
    apply div_nonneg _ (le_of_lt hp0)
    have : (0 : ℚ) ≤ (cfg.capital : ℚ) := by exact_mod_cast le_of_lt hcap
    exact this
  · intro hsw
    rw [scanWindow] at hsw
    have hspec := scanLoop_some_spec l (targetCapitalAt cfg r)
      (costOfLivingAt cfg r) (b - a) held a i h2 hsw
    have hpi : 0 < (l.getD i defaultDatePrice).HighPrice :=
      hpos _ (getD_mem (by omega))
    have htarget := hspec.2.2.1
    have hcapfac : (0 : ℚ) < (cfg.capital : ℚ) * inflationFactorAt cfg r := by
      apply mul_pos _ hfac
      exact_mod_cast hcap
    have hcol_lt : costOfLivingAt cfg r <
        (held : ℚ) * (l.getD i defaultDatePrice).HighPrice := by
      rw [targetCapitalAt] at htarget
      linarith
    have hsold : i64 (costOfLivingAt cfg r /
        (l.getD i defaultDatePrice).HighPrice) < held := by
      rw [i64_eq_floor _ (div_nonneg hcol (le_of_lt hpi))]
      have h1 : (⌊costOfLivingAt cfg r /
          (l.getD i defaultDatePrice).HighPrice⌋ : ℚ) ≤
          costOfLivingAt cfg r / (l.getD i defaultDatePrice).HighPrice :=
        Int.floor_le _
      have hq : costOfLivingAt cfg r / (l.getD i defaultDatePrice).HighPrice <
          (held : ℚ) := by
        rw [div_lt_iff₀ hpi]
        linarith
      have := lt_of_le_of_lt h1 hq
      exact_mod_cast this
    rw [hspec.2.2.2.1]
    omega

/-- Claim C9, concrete instance: in the first-period liquidation of
`cfgLowCost` on `series5`, 90 of the 100 held shares are sold and the
remaining count 10 is nonnegative. -/
theorem heldShares_nonneg_witness :
    (0 < cfgLowCost.capital ∧ 1 < cfgLowCost.inflationRate ∧
      0 ≤ cfgLowCost.costPerYear ∧ 0 < (1 : ℚ) ∧
      (∀ dp ∈ series5, 0 < dp.HighPrice) ∧ 3 ≤ series5.length) ∧
    (0 ≤ initialShares cfgLowCost ⟨⟨2000, 1, 1⟩, 1⟩ ∧
      (scanWindow series5 100 (targetCapitalAt cfgLowCost 0)
          (costOfLivingAt cfgLowCost 0) 0 3 = some (1, 10) →
        (100 : Int) - 10 ≤ 100 ∧ (0 : Int) ≤ 10)) :=
  ⟨of_decide_eq_true (by with_unfolding_all rfl),
    heldShares_nonneg cfgLowCost series5 ⟨⟨2000, 1, 1⟩, 1⟩ 0 100 10 0 3 1
      (of_decide_eq_true (by with_unfolding_all rfl))
      (of_decide_eq_true (by with_unfolding_all rfl))
      (of_decide_eq_true (by with_unfolding_all rfl))
      (of_decide_eq_true (by with_unfolding_all rfl))
      (of_decide_eq_true (by with_unfolding_all rfl))
      (of_decide_eq_true (by with_unfolding_all rfl))⟩

/-- Claim C10: if in some run both date lookups succeed but return the same
index — an empty scan window `[startIndex, endIndex)` — the run loop returns
Failed from that state, whatever the held share count: a data gap inside the
series is classified as Failed, not NotApplicable. -/
theorem emptyWindow_failed (cfg : Config) (l : List DatePrice) (held : Int)
    (e : Date) (rIdx fuel : Nat) (z : Int)
    (hstart : findClosestDay e l = (z, true))
    (hend : findClosestDay (e.addYears (cfg.yearPerRun : Int)) l = (z, true)) :
    checkRuns cfg l held e rIdx (fuel + 1) = Outcome.failed := by
  rw [checkRuns_succ, hstart, hend]
  rw [if_neg (by simp)]
  have hsw : scanWindow l held (targetCapitalAt cfg rIdx)
      (costOfLivingAt cfg rIdx) (z, true).1.toNat (z, true).1.toNat = none := by
    rw [scanWindow, Nat.sub_self]
    rfl
  rw [hsw]

/-- Claim C10, concrete instance: with one sample in 2000 and the next only in
2010, both lookups for the period 2005 to 2006 return index 1, and the run
fails regardless of the 5 shares held. -/
theorem emptyWindow_failed_witness :
    findClosestDay ⟨2005, 1, 1⟩
        [⟨⟨2000, 1, 1⟩, 100⟩, ⟨⟨2010, 1, 1⟩, 100⟩] = (1, true) ∧
    findClosestDay (Date.addYears ⟨2005, 1, 1⟩
        ((cfgScenario.yearPerRun : Nat) : Int))
        [⟨⟨2000, 1, 1⟩, 100⟩, ⟨⟨2010, 1, 1⟩, 100⟩] = (1, true) ∧
    checkRuns cfgScenario [⟨⟨2000, 1, 1⟩, 100⟩, ⟨⟨2010, 1, 1⟩, 100⟩] 5
      ⟨2005, 1, 1⟩ 0 1 = Outcome.failed :=
  ⟨of_decide_eq_true (by with_unfolding_all rfl),
    of_decide_eq_true (by with_unfolding_all rfl),
    emptyWindow_failed cfgScenario [⟨⟨2000, 1, 1⟩, 100⟩, ⟨⟨2010, 1, 1⟩, 100⟩]
      5 ⟨2005, 1, 1⟩ 0 0 1
      (of_decide_eq_true (by with_unfolding_all rfl))
      (of_decide_eq_true (by with_unfolding_all rfl))⟩

end Rearview
